import Mathlib

/-!
# mhtml-to-pdf: the leading-whitespace reader, the persist loop and the reference rewriter

A shallow embedding of `cmd/cmd.go` (package `cmd`) and of the pieces of the Go
standard library and of `goquery` that the embedded functions call.

* Byte slices are `List Byte` with `Byte := Nat` (values `0..255`); runes are `Nat`.
* A reader is a state machine: `Read` takes the reader state and the caller's
  buffer and gives back the buffer after the call, the count `n`, the error and
  the next state.
* Effects of `process` (directories, files, the document parser, the renderer)
  are recorded in an event log; the outcome of each call is given by an
  environment that may depend on the events so far.
-/

namespace MhtmlToPdf

/-! ## Go values -/

/-- A byte of a `[]byte` or of a `string`. -/
abbrev Byte := Nat

/-- A Go `rune` (only non-negative runes occur here). -/
abbrev Rune := Nat

/-- Go `error` values that occur in `cmd.go`. -/
inductive Error where
  /-- The sentinel `io.EOF`. -/
  | EOF
  /-- The package sentinel `ErrMissingContentType` (`cmd.go:99`). -/
  | ErrMissingContentType
  /-- Result of `errors.New(msg)`. -/
  | New (msg : String)
  /-- Result of `fmt.Errorf(format, arg, err)` with the error it reports. -/
  | Errorf (format : String) (arg : String) (err : Error)
  /-- An error value handed back by a library or by the operating system. -/
  | lib (msg : String)
  deriving DecidableEq, Repr

/-! ## `unicode/utf8` and `unicode` (Go standard library) -/

namespace utf8

/-- The constant `utf8.RuneError`, U+FFFD. -/
def RuneError : Rune := 0xFFFD
/-- The constant `utf8.RuneSelf`: bytes below it are runes of one byte. -/
def RuneSelf : Nat := 0x80

/-- Lowest continuation byte. -/
def locb : Nat := 0x80
/-- Highest continuation byte. -/
def hicb : Nat := 0xBF

/-- Entries of the table `first`: `xx` invalid, `as` ASCII, `s1`..`s7` with the
size in the low three bits and the index into `acceptRanges` in the high four. -/
def xx : Nat := 0xF1
def as : Nat := 0xF0
def s1 : Nat := 0x02
def s2 : Nat := 0x13
def s3 : Nat := 0x03
def s4 : Nat := 0x23
def s5 : Nat := 0x34
def s6 : Nat := 0x04
def s7 : Nat := 0x44

def mask2 : Nat := 0x1F
def mask3 : Nat := 0x0F
def mask4 : Nat := 0x07
def maskx : Nat := 0x3F

/-- The table `first`: information about the first byte of an encoding. -/
def first (b : Byte) : Nat :=
  if b < 0x80 then as
  else if b < 0xC2 then xx
  else if b < 0xE0 then s1
  else if b = 0xE0 then s2
  else if b < 0xED then s3
  else if b = 0xED then s4
  else if b < 0xF0 then s3
  else if b = 0xF0 then s5
  else if b < 0xF4 then s6
  else if b = 0xF4 then s7
  else xx

/-- The table `acceptRanges` (`[16]acceptRange`), as pairs `(lo, hi)`. -/
def acceptRanges (i : Nat) : Nat × Nat :=
  match i with
  | 0 => (locb, hicb)
  | 1 => (0xA0, hicb)
  | 2 => (locb, 0x9F)
  | 3 => (0x90, hicb)
  | 4 => (locb, 0x8F)
  | _ => (0, 0)

/-- The function `utf8.DecodeRune`: the first rune of `p` and its width in bytes. -/
def DecodeRune (p : List Byte) : Rune × Nat :=
  let n := p.length
  if n < 1 then (RuneError, 0) else
  let p0 := p.getD 0 0
  let x := first p0
  if x ≥ as then
    -- `mask := rune(x) << 31 >> 31` is all ones when bit 0 of `x` is set, else zero
    if x &&& 1 = 0 then (p0, 1) else (RuneError, 1)
  else
  let sz := x &&& 7
  let accept := acceptRanges (x >>> 4)
  if n < sz then (RuneError, 1) else
  let b1 := p.getD 1 0
  if b1 < accept.1 ∨ accept.2 < b1 then (RuneError, 1) else
  if sz ≤ 2 then (((p0 &&& mask2) <<< 6) ||| (b1 &&& maskx), 2) else
  let b2 := p.getD 2 0
  if b2 < locb ∨ hicb < b2 then (RuneError, 1) else
  if sz ≤ 3 then
    (((p0 &&& mask3) <<< 12) ||| ((b1 &&& maskx) <<< 6) ||| (b2 &&& maskx), 3)
  else
  let b3 := p.getD 3 0
  if b3 < locb ∨ hicb < b3 then (RuneError, 1) else
  (((p0 &&& mask4) <<< 18) ||| ((b1 &&& maskx) <<< 12) ||| ((b2 &&& maskx) <<< 6)
    ||| (b3 &&& maskx), 4)

end utf8

namespace unicode

/-- The constant `unicode.MaxLatin1`. -/
def MaxLatin1 : Rune := 0xFF

/-- The 16-bit ranges `(Lo, Hi, Stride)` of the table `White_Space`. -/
def White_Space_R16 : List (Nat × Nat × Nat) :=
  [(0x0009, 0x000d, 1), (0x0020, 0x0020, 1), (0x0085, 0x0085, 1), (0x00a0, 0x00a0, 1),
   (0x1680, 0x1680, 1), (0x2000, 0x200a, 1), (0x2028, 0x2029, 1), (0x202f, 0x202f, 1),
   (0x205f, 0x205f, 1), (0x3000, 0x3000, 1)]

/-- The field `LatinOffset` of `White_Space`. -/
def White_Space_LatinOffset : Nat := 4

/-- The linear search of `is16` (tables of at most `linearMax` ranges). -/
def is16 : List (Nat × Nat × Nat) → Nat → Bool
  | [], _ => false
  | (lo, hi, stride) :: ranges, r =>
    if r < lo then false
    else if r ≤ hi then stride == 1 || (r - lo) % stride == 0
    else is16 ranges r

/-- The function `isExcludingLatin`, for the table `White_Space` (it has no 32-bit ranges). -/
def isExcludingLatin_White_Space (r : Rune) : Bool :=
  let r16 := White_Space_R16
  let off := White_Space_LatinOffset
  if r16.length > off ∧ r ≤ (r16.getD (r16.length - 1) (0, 0, 0)).2.1 then
    is16 (r16.drop off) r
  else false

/-- The function `unicode.IsSpace`. -/
def IsSpace (r : Rune) : Bool :=
  if r ≤ MaxLatin1 then
    r == 0x09 || r == 0x0A || r == 0x0B || r == 0x0C || r == 0x0D || r == 0x20
      || r == 0x85 || r == 0xA0
  else isExcludingLatin_White_Space r

end unicode

/-! ## `bytes` (Go standard library) -/

namespace bytes

/-- The loop of `bytes.indexFunc`; `start` is the loop variable, and each turn
moves it forward by at least one byte, so `len(s)` turns always suffice. -/
def indexFuncLoop (s : List Byte) (f : Rune → Bool) (truth : Bool) : Nat → Nat → Int
  | 0, _ => -1
  | fuel + 1, start =>
    if start < s.length then
      let b := s.getD start 0
      let rw : Rune × Nat := if b ≥ utf8.RuneSelf then utf8.DecodeRune (s.drop start) else (b, 1)
      if f rw.1 == truth then (start : Int)
      else indexFuncLoop s f truth fuel (start + rw.2)
    else -1

/-- The rune and the width that one turn of the `indexFunc` loop reads at `start`. -/
def runeAt (s : List Byte) (start : Nat) : Rune × Nat :=
  if s.getD start 0 ≥ utf8.RuneSelf then utf8.DecodeRune (s.drop start) else (s.getD start 0, 1)

/-- The function `bytes.indexFunc`: index of the first rune `r` with `f(r) == truth`, or `-1`. -/
def indexFunc (s : List Byte) (f : Rune → Bool) (truth : Bool) : Int :=
  indexFuncLoop s f truth s.length 0

/-- The function `bytes.TrimLeftFunc`: `s` without its leading runes satisfying `f`. -/
def TrimLeftFunc (s : List Byte) (f : Rune → Bool) : List Byte :=
  let i := indexFunc s f false
  if i == -1 then [] else s.drop i.toNat

end bytes

/-- The builtin `copy(dst, src)`: the destination afterwards and the number of bytes copied. -/
def copy (dst src : List Byte) : List Byte × Nat :=
  let n := min dst.length src.length
  (src.take n ++ dst.drop n, n)

/-! ## `trimReader` (`cmd.go:247-266`) -/

/-- What one `Read(buf)` call leaves behind: the buffer, the count and the error. -/
structure ReadResult where
  buf : List Byte
  n : Nat
  err : Option Error
  deriving DecidableEq, Repr

/-- The bytes a read hands to its caller, `buf[:n]`. -/
def ReadResult.bytes (r : ReadResult) : List Byte := r.buf.take r.n

/-- An `io.Reader` with state `σ`: `Read` maps the state and the caller's buffer
to the result and the next state. -/
abbrev Reader (σ : Type) := σ → List Byte → ReadResult × σ

/-- The struct `trimReader`. -/
structure trimReader (σ : Type) where
  rd : σ
  trimmed : Bool

/-- The method `trimReader.Read`, over the `Read` method of the wrapped reader. -/
def trimReader.Read {σ : Type} (rdRead : Reader σ) : Reader (trimReader σ) := fun tr buf =>
  let res := rdRead tr.rd buf
  let n := res.1.n
  let err := res.1.err
  let buf := res.1.buf
  match err with
  | some e => ({ buf := buf, n := n, err := some e }, { tr with rd := res.2 })
  | none =>
    if !tr.trimmed then
      let t := bytes.TrimLeftFunc (buf.take n) unicode.IsSpace
      let c := copy buf t
      ({ buf := c.1, n := c.2, err := none }, { rd := res.2, trimmed := true })
    else
      ({ buf := buf, n := n, err := none }, { tr with rd := res.2 })

/-- Successive `Read` calls with the caller's buffers `bufs`, from state `s`. -/
def readCalls {σ : Type} (rdRead : Reader σ) : σ → List (List Byte) → List ReadResult
  | _, [] => []
  | s, buf :: bufs =>
    let res := rdRead s buf
    res.1 :: readCalls rdRead res.2 bufs

/-- The bytes delivered by a sequence of reads, in order. -/
def delivered (rs : List ReadResult) : List Byte := (rs.map ReadResult.bytes).flatten

/-- What `trimReader.Read` makes of an error-free read while `trimmed` is unset:
`t := bytes.TrimLeftFunc(buf[:n], unicode.IsSpace); n = copy(buf, t)`. -/
def trimChunk (r : ReadResult) : ReadResult :=
  let t := bytes.TrimLeftFunc (r.buf.take r.n) unicode.IsSpace
  { buf := (copy r.buf t).1, n := (copy r.buf t).2, err := none }

/-- The contract of §4.1 on a sequence of reads: reads that return an error are
handed on as they are, the first error-free read is trimmed, all later reads
are handed on as they are. -/
def trimFirst : List ReadResult → List ReadResult
  | [] => []
  | r :: rs =>
    match r.err with
    | some _ => r :: trimFirst rs
    | none => trimChunk r :: rs

/-- A sequence of reads that delivers a stream in chunks: every read that
returns an error comes after all the error-free reads (the first of them may
carry the last chunk together with end-of-stream). -/
def errorsLast : List ReadResult → Bool
  | [] => true
  | r :: rs => if r.err.isNone then errorsLast rs else rs.all (fun x => x.err.isSome)

/-- A test reader that plays a script: each call delivers the next chunk with
its error; when the script is over it answers `0, io.EOF`. -/
def chunkReader : Reader (List (List Byte × Option Error))
  | [], buf => ({ buf := buf, n := 0, err := some Error.EOF }, [])
  | (d, e) :: script, buf => ({ buf := (copy buf d).1, n := (copy buf d).2, err := e }, script)

/-! ## `path` and `strings` (Go standard library)

Strings are read character by character; the functions below only look for the
ASCII characters `/` and `.`, so this agrees with Go's reading byte by byte. -/

namespace path

/-- The inner loop of the `..` case of `path.Clean`:
`for out.w > dotdot && out.index(out.w) != '/' { out.w-- }`, started at `w`. -/
def backtrack (out : List Char) (dotdot : Nat) : Nat → Nat
  | 0 => 0
  | w + 1 => if w + 1 > dotdot ∧ out.getD (w + 1) '/' ≠ '/' then backtrack out dotdot w else w + 1

/-- One turn of the main loop of `path.Clean`, at `path[r:] = c :: t`: what is
left to read, the written part `out` of the buffer, and `dotdot`. -/
def cleanStep (rooted : Bool) (c : Char) (t : List Char) (out : List Char) (dotdot : Nat) :
    List Char × List Char × Nat :=
  if c = '/' then
    -- empty path element
    (t, out, dotdot)
  else if c = '.' ∧ (t = [] ∨ t.head? = some '/') then
    -- . element
    (t, out, dotdot)
  else if c = '.' ∧ t.head? = some '.' ∧ (t.tail = [] ∨ t.tail.head? = some '/') then
    -- .. element: remove to last /
    if out.length > dotdot then
      -- can backtrack
      (t.tail, out.take (backtrack out dotdot (out.length - 1)), dotdot)
    else if rooted = false then
      -- cannot backtrack, but not rooted, so append .. element
      (t.tail, (if out.length > 0 then out ++ ['/'] else out) ++ ['.', '.'],
        ((if out.length > 0 then out ++ ['/'] else out) ++ ['.', '.']).length)
    else (t.tail, out, dotdot)
  else
    -- real path element: add slash if needed, copy element
    (t.dropWhile (fun x => x ≠ '/'),
      (if (rooted = true ∧ out.length ≠ 1) ∨ (rooted = false ∧ out.length ≠ 0)
        then out ++ ['/'] else out) ++ c :: t.takeWhile (fun x => x ≠ '/'),
      dotdot)

/-- The main loop of `path.Clean`, `for r < n`. `rest` is `path[r:]`; every turn
reads at least one character, so `len(path)` turns always suffice. The result
is the written part of the buffer and `dotdot`. -/
def cleanLoop (rooted : Bool) : Nat → List Char → List Char → Nat → List Char × Nat
  | 0, _, out, dotdot => (out, dotdot)
  | fuel + 1, rest, out, dotdot =>
    match rest with
    | [] => (out, dotdot)
    | c :: t =>
      cleanLoop rooted fuel (cleanStep rooted c t out dotdot).1
        (cleanStep rooted c t out dotdot).2.1 (cleanStep rooted c t out dotdot).2.2

/-- The function `path.Clean`, on the characters of the path. -/
def cleanChars (p : List Char) : List Char :=
  if p = [] then ['.'] else
  let rooted : Bool := p.head? = some '/'
  let out := (cleanLoop rooted p.length (if rooted then p.tail else p)
    (if rooted then ['/'] else []) (if rooted then 1 else 0)).1
  if out.length = 0 then ['.'] else out

/-- The function `path.Clean`. -/
def Clean (p : String) : String := String.mk (cleanChars p.data)

/-- The buffer that `path.Join` builds: the non-empty elements separated by slashes. -/
def joinBuf : List (List Char) → List Char → List Char
  | [], buf => buf
  | e :: elem, buf =>
    if buf.length > 0 ∨ e ≠ [] then
      joinBuf elem ((if buf.length > 0 then buf ++ ['/'] else buf) ++ e)
    else joinBuf elem buf

/-- The function `path.Join`. -/
def Join (elem : List String) : String :=
  let size := (elem.map String.length).sum
  if size = 0 then "" else Clean (String.mk (joinBuf (elem.map String.data) []))

end path

namespace strings

/-- The function `strings.TrimSuffix`. -/
def TrimSuffix (s suffix : String) : String :=
  if suffix.data.isSuffixOf s.data then String.mk (s.data.take (s.data.length - suffix.data.length))
  else s

end strings

namespace filepath

/-- The loop of `filepath.Ext`, from the end of the path backwards; `acc` is
the part of the path already passed. -/
def extLoop (isSep : Char → Bool) : List Char → List Char → List Char
  | [], _ => []
  | c :: before, acc =>
    if isSep c then [] else if c = '.' then c :: acc else extLoop isSep before (c :: acc)

/-- The function `filepath.Ext`, given `os.IsPathSeparator`. -/
def Ext (isSep : Char → Bool) (path : String) : String :=
  String.mk (extLoop isSep path.data.reverse [])

end filepath

namespace fmt

/-- The digit loop of `fmt` for `%d` on a non-negative integer, base ten:
`for u >= 10 { buf[i] = '0' + u%10; u /= 10 }; buf[i] = '0' + u`. -/
def fmtInteger : Nat → Nat → List Char → List Char
  | 0, u, buf => Char.ofNat (48 + u % 10) :: buf
  | fuel + 1, u, buf =>
    if u ≥ 10 then fmtInteger fuel (u / 10) (Char.ofNat (48 + u % 10) :: buf)
    else Char.ofNat (48 + u) :: buf

/-- The call `fmt.Sprintf("%d%s", idx, ext)` of `cmd.go:129`, for `idx ≥ 0`. -/
def Sprintf_d_s (idx : Nat) (ext : String) : String :=
  String.mk (fmtInteger idx idx []) ++ ext

end fmt

/-! ## `goquery` and `golang.org/x/net/html`: the node fields and attribute helpers used by `changeRef` -/

/-- The struct `html.Attribute`. -/
structure Attribute where
  Namespace : String
  Key : String
  Val : String
  deriving DecidableEq, Repr

/-- The type `html.NodeType`. -/
inductive NodeType where
  | ErrorNode | TextNode | DocumentNode | ElementNode | CommentNode | DoctypeNode | RawNode
  deriving DecidableEq, Repr

/-- The fields of `html.Node` that `changeRef` reads or writes (tree links apart). -/
structure Node where
  Type_ : NodeType
  Data : String
  Attr : List Attribute
  deriving DecidableEq, Repr

/-- A parsed document: a node and its children, in document order. -/
inductive Document where
  | node (n : Node) (children : List Document)

namespace goquery

/-- The helper `getAttributePtr`: position of the first attribute with the key `attrName`. -/
def getAttributePtr (attrName : String) (attr : List Attribute) : Option Nat :=
  attr.findIdx? (fun a => a.Key == attrName)

/-- The method `Selection.Attr` on a selection of one node: `(val, exists)`. -/
def Attr (n : Node) (attrName : String) : String × Bool :=
  match n.Attr.find? (fun a => a.Key == attrName) with
  | some a => (a.Val, true)
  | none => ("", false)

/-- The helper `removeAttr`: the first attribute with the key is overwritten by
the last attribute and the slice is cut by one
(`n.Attr[i], n.Attr[len-1], n.Attr = n.Attr[len-1], html.Attribute{}, n.Attr[:len-1]`). -/
def removeAttr (attr : List Attribute) (attrName : String) : List Attribute :=
  match getAttributePtr attrName attr with
  | some i => (attr.set i (attr.getLastD ⟨"", "", ""⟩)).dropLast
  | none => attr

/-- The method `Selection.RemoveAttr` on a selection of one node. -/
def RemoveAttr (n : Node) (attrName : String) : Node :=
  { n with Attr := removeAttr n.Attr attrName }

/-- The method `Selection.SetAttr` on a selection of one node: the value of the
first attribute with the key is replaced, or a new attribute is appended. -/
def SetAttr (n : Node) (attrName val : String) : Node :=
  match getAttributePtr attrName n.Attr with
  | none => { n with Attr := n.Attr ++ [{ Namespace := "", Key := attrName, Val := val }] }
  | some i =>
    { n with Attr := n.Attr.modify (fun a => { a with Val := val }) i }

end goquery

/-! ## `MHTMLToPdf.changeRef` (`cmd.go:225-239`) -/

/-- A Go `map[string]string`. -/
abbrev StringMap := String → Option String

/-- The empty map, `make(map[string]string)`. -/
def StringMap.empty : StringMap := fun _ => none

/-- The assignment `m[k] = v`. -/
def StringMap.set (m : StringMap) (k v : String) : StringMap :=
  fun k' => if k' = k then some v else m k'

/-- The method `changeRef`, on the node of the selection `e`. -/
def changeRef (e : Node) (saves : StringMap) : Node :=
  let attr := "src"
  -- switch e.Get(0).Data
  let sw : Node × String :=
    if e.Data = "img" then
      (goquery.RemoveAttr (goquery.RemoveAttr e "loading") "srcset", attr)
    else if e.Data = "link" then (e, "href")
    else (e, attr)
  let ref := (goquery.Attr sw.1 sw.2).1
  match saves ref with
  | some loc => goquery.SetAttr sw.1 sw.2 loc
  | none => sw.1

mutual
/-- The callback of `cmd.go:147-149` on every node of a subtree that the
selector `img,link,script` matches (element nodes with one of these tags). -/
def Document.each (saves : StringMap) : Document → Document
  | .node n children =>
    .node
      (if n.Type_ = NodeType.ElementNode ∧ (n.Data = "img" ∨ n.Data = "link" ∨ n.Data = "script")
        then changeRef n saves else n)
      (Document.eachList saves children)
/-- The same on a list of subtrees. -/
def Document.eachList (saves : StringMap) : List Document → List Document
  | [] => []
  | c :: cs => Document.each saves c :: Document.eachList saves cs
end

/-- The call `doc.Find("img,link,script").Each(...)`: the callback runs on the
matching nodes below the root. -/
def Document.FindEach (saves : StringMap) : Document → Document
  | .node n children => .node n (Document.eachList saves children)

/-! ## `MHTMLToPdf.process` (`cmd.go:69-179`) and `printPdf` (`cmd.go:181-201`) -/

/-- The type `textproto.MIMEHeader`: canonical keys with their values. -/
abbrev MIMEHeader := List (String × List String)

/-- The method `MIMEHeader.Get` for a key in canonical form (`Content-Type` and
`Content-Location` are): the first value of the key, or `""`. -/
def MIMEHeader.Get (h : MIMEHeader) (key : String) : String :=
  match h.lookup key with
  | some (v :: _) => v
  | _ => ""

/-- The struct `part`. -/
structure part where
  header : MIMEHeader
  body : List Byte
  deriving DecidableEq, Repr

/-- The calls by which `process` acts on the outside world, in program order. -/
inductive Event where
  | MkdirAll (path : String)
  | WriteFile (name : String) (data : List Byte)
  | NewDocumentFromReader (body : List Byte)
  | Run (url : String)
  | RemoveAll (path : String)
  | Remove (name : String)
  deriving DecidableEq, Repr

/-- The library and the operating system as `process` sees them. Calls with an
effect get the events so far and answer with their error, if any. -/
structure Env where
  /-- The call `mime.ParseMediaType(v)`: the media type, or the error. -/
  ParseMediaType : String → Except Error String
  /-- The call `mime.TypeByExtension(ext)`. -/
  TypeByExtension : String → String
  /-- The call `mime.ExtensionsByType(typ)`. -/
  ExtensionsByType : String → Except Error (List String)
  /-- The function `os.IsPathSeparator` of the platform. -/
  IsPathSeparator : Char → Bool
  /-- The call `filepath.Abs(path)`. -/
  Abs : String → Except Error String
  /-- The call `os.MkdirAll(path, 0766)`. -/
  MkdirAll : List Event → String → Option Error
  /-- The call `os.WriteFile(name, data, 0766)`. -/
  WriteFile : List Event → String → List Byte → Option Error
  /-- The call `os.RemoveAll(path)`. -/
  RemoveAll : List Event → String → Option Error
  /-- The call `os.Remove(name)`. -/
  Remove : List Event → String → Option Error
  /-- The call `goquery.NewDocumentFromReader(bytes.NewReader(body))`. -/
  NewDocumentFromReader : List Byte → Except Error Document
  /-- The call `doc.Html()`, as the bytes of the string. -/
  Html : Document → Except Error (List Byte)
  /-- The call `chromedp.Run(taskCtx, h.pdfGrabber(url, "body", &pdfBuffer))`: the PDF bytes. -/
  Run : List Event → String → Except Error (List Byte)

/-- The choice of the file extension, `cmd.go:110-122`. -/
def chooseExt (env : Env) (mimetype : String) : Except Error String :=
  let ext := ".dat"
  if mimetype = env.TypeByExtension ".jpg" then .ok ".jpg"
  else
    match env.ExtensionsByType mimetype with
    | .error err => .error err
    | .ok exts => if exts.length > 0 then .ok (exts.headD ext) else .ok ext

/-- The variables of the loop of `process`: `html`, `saves`, and the events so far. -/
structure LoopState where
  html : Option part
  saves : StringMap
  log : List Event

/-- The body of the loop `for idx, part := range parts` (`cmd.go:96-136`); the
error is the one `process` returns from inside the loop. -/
def persistPart (env : Env) (savedir : String) (idx : Nat) (p : part) (st : LoopState) :
    Option Error × LoopState :=
  let contentType := p.header.Get "Content-Type"
  if contentType = "" then (some Error.ErrMissingContentType, st) else
  match env.ParseMediaType contentType with
  | .error err => (some err, st)
  | .ok mimetype =>
    if st.html.isNone ∧ mimetype = "text/html" then (none, { st with html := some p }) else
    match chooseExt env mimetype with
    | .error err => (some err, st)
    | .ok ext =>
      let dir := path.Join [savedir, mimetype]
      let log1 := st.log ++ [Event.MkdirAll dir]
      match env.MkdirAll st.log dir with
      | some err => (some (Error.Errorf "cannot create dir %s: %s" dir err), { st with log := log1 })
      | none =>
        let file := path.Join [dir, fmt.Sprintf_d_s idx ext]
        let log2 := log1 ++ [Event.WriteFile file p.body]
        match env.WriteFile log1 file p.body with
        | some err =>
          (some (Error.Errorf "cannot write file%s: %s" file err), { st with log := log2 })
        | none =>
          let ref := p.header.Get "Content-Location"
          (none, { st with saves := st.saves.set ref file, log := log2 })

/-- The loop `for idx, part := range parts` (`cmd.go:96-136`), from index `idx` on. -/
def persistLoop (env : Env) (savedir : String) : List part → Nat → LoopState →
    Option Error × LoopState
  | [], _, st => (none, st)
  | p :: parts, idx, st =>
    match persistPart env savedir idx p st with
    | (some err, st1) => (some err, st1)
    | (none, st1) => persistLoop env savedir parts (idx + 1) st1

/-- The state before the loop: `html` is nil, `saves` is empty, nothing has happened. -/
def LoopState.init : LoopState := { html := none, saves := StringMap.empty, log := [] }

/-- The directory `savedir` of `cmd.go:94`. -/
def savedirOf (env : Env) (mht : String) : String :=
  strings.TrimSuffix mht (filepath.Ext env.IsPathSeparator mht) ++ "_files"

/-- The method `printPdf`: the error, and the events so far. -/
def printPdf (env : Env) (path target : String) (log : List Event) : Option Error × List Event :=
  let url := "file:///" ++ path
  let log1 := log ++ [Event.Run url]
  match env.Run log url with
  | .error err => (some err, log1)
  | .ok pdfBuffer =>
    let fileName := strings.TrimSuffix target (filepath.Ext env.IsPathSeparator target) ++ ".pdf"
    let log2 := log1 ++ [Event.WriteFile fileName pdfBuffer]
    match env.WriteFile log1 fileName pdfBuffer with
    | some err => (some err, log2)
    | none => (none, log2)

/-- The method `process` from `cmd.go:93` on, for the input file name `mht` and
the parts that `parseMIMEParts` returned: the error returned (`none` for nil)
and the events in program order. -/
def process (env : Env) (mht : String) (parts : List part) : Option Error × List Event :=
  let savedir := savedirOf env mht
  match persistLoop env savedir parts 0 LoopState.init with
  | (some err, st) => (some err, st.log)
  | (none, st) =>
    match st.html with
    | none => (some (Error.New "html not found"), st.log)
    | some html =>
      let log1 := st.log ++ [Event.NewDocumentFromReader html.body]
      match env.NewDocumentFromReader html.body with
      | .error err => (some err, log1)
      | .ok doc =>
        match env.Html (doc.FindEach st.saves) with
        | .error err => (some err, log1)
        | .ok data =>
          let target := strings.TrimSuffix mht (filepath.Ext env.IsPathSeparator mht) ++ ".html"
          let log2 := log1 ++ [Event.WriteFile target data]
          match env.WriteFile log1 target data with
          | some err => (some err, log2)
          | none =>
            match env.Abs target with
            | .error err => (some err, log2)
            | .ok path =>
              match printPdf env path target log2 with
              | (some err, log3) => (some err, log3)
              | (none, log3) =>
                let log4 := log3 ++ [Event.RemoveAll savedir]
                match env.RemoveAll log3 savedir with
                | some err => (some err, log4)
                | none =>
                  let log5 := log4 ++ [Event.Remove target]
                  match env.Remove log4 target with
                  | some err => (some err, log5)
                  | none => (none, log5)

/-- A test environment: media types are read up to the first `;` (a value that
starts with `;` does not parse), the registry knows a few types, and no call fails. -/
def testEnv : Env where
  ParseMediaType := fun v =>
    match v.data.takeWhile (fun c => c ≠ ';') with
    | [] => .error (Error.lib "mime: no media type")
    | cs => .ok (String.mk cs)
  TypeByExtension := fun _ => "image/jpeg"
  ExtensionsByType := fun t =>
    if t = "image/png" then .ok [".png"]
    else if t = "text/html" then .ok [".htm", ".html"]
    else if t = "text/css" then .ok [".css"]
    else .ok []
  IsPathSeparator := fun c => c = '/'
  Abs := fun p => .ok ("/" ++ p)
  MkdirAll := fun _ _ => none
  WriteFile := fun _ _ _ => none
  RemoveAll := fun _ _ => none
  Remove := fun _ _ => none
  NewDocumentFromReader := fun _ =>
    .ok (.node { Type_ := NodeType.DocumentNode, Data := "", Attr := [] } [])
  Html := fun _ => .ok []
  Run := fun _ _ => .ok [37, 80, 68, 70]

/-! ## Vocabulary of the statements about `process` -/

/-- The media type of a part as the loop computes it (`""` when the loop would fail on it). -/
def mediaTypeOf (env : Env) (p : part) : String :=
  match env.ParseMediaType (p.header.Get "Content-Type") with
  | .ok mimetype => mimetype
  | .error _ => ""

/-- The extension the loop chooses for a part (`""` when the loop would fail on it). -/
def extOf (env : Env) (p : part) : String :=
  match chooseExt env (mediaTypeOf env p) with
  | .ok ext => ext
  | .error _ => ""

/-- The part's media type is `text/html`. -/
def isHTML (env : Env) (p : part) : Bool :=
  match env.ParseMediaType (p.header.Get "Content-Type") with
  | .ok mimetype => mimetype == "text/html"
  | .error _ => false

/-- The part has a non-empty `Content-Type` that `mime.ParseMediaType` accepts. -/
def typed (env : Env) (p : part) : Prop :=
  p.header.Get "Content-Type" ≠ "" ∧
    ∃ mimetype, env.ParseMediaType (p.header.Get "Content-Type") = .ok mimetype

/-- File I/O succeeds: `os.MkdirAll` and `os.WriteFile` return nil, and
`mime.ExtensionsByType` returns nil for every media type that
`mime.ParseMediaType` produced (as it does in Go: it parses that type again). -/
def Env.ioSucceeds (env : Env) : Prop :=
  (∀ log dir, env.MkdirAll log dir = none) ∧
    (∀ log name data, env.WriteFile log name data = none) ∧
    (∀ v mimetype, env.ParseMediaType v = .ok mimetype →
      ∃ exts, env.ExtensionsByType mimetype = .ok exts)

/-- The event is one of the two calls the persist loop makes. -/
def Event.isPersist : Event → Bool
  | .MkdirAll _ => true
  | .WriteFile _ _ => true
  | _ => false

/-- The event hands a body to the HTML parser. -/
def Event.isNewDocument : Event → Bool
  | .NewDocumentFromReader _ => true
  | _ => false

/-- The directory the loop creates for a part, `path.Join(savedir, mimetype)`. -/
def dirOf (env : Env) (savedir : String) (p : part) : String :=
  path.Join [savedir, mediaTypeOf env p]

/-- The file the loop writes for the part at index `idx`,
`path.Join(dir, fmt.Sprintf("%d%s", idx, ext))`. -/
def fileOf (env : Env) (savedir : String) (idx : Nat) (p : part) : String :=
  path.Join [dirOf env savedir p, fmt.Sprintf_d_s idx (extOf env p)]

/-- The parts the loop persists, with their indices: all parts from index `idx`
on, except the first `text/html` part when `html` is still nil. -/
def persisted (env : Env) : Bool → Nat → List part → List (Nat × part)
  | _, _, [] => []
  | htmlNil, idx, p :: parts =>
    if htmlNil ∧ isHTML env p then persisted env false (idx + 1) parts
    else (idx, p) :: persisted env htmlNil (idx + 1) parts

/-- The map after the assignments `saves[ref] = file` for the given parts, in order. -/
def savesAfter (env : Env) (savedir : String) : StringMap → List (Nat × part) → StringMap
  | m, [] => m
  | m, (idx, p) :: rest =>
    savesAfter env savedir (m.set (p.header.Get "Content-Location") (fileOf env savedir idx p)) rest

/-- The element `<script type="module">`, an inline script. -/
def scriptInline : Node :=
  { Type_ := NodeType.ElementNode, Data := "script", Attr := [⟨"", "type", "module"⟩] }

/-- A `text/html` part with the location `http://x/`. -/
def htmlPart : part :=
  { header := [("Content-Type", ["text/html; charset=utf-8"]), ("Content-Location", ["http://x/"])],
    body := [60, 97] }

/-- A second `text/html` part. -/
def htmlPart2 : part := { header := [("Content-Type", ["text/html"])], body := [60, 98] }

/-- An `image/png` part with the location `cid:image1`. -/
def pngPart : part :=
  { header := [("Content-Type", ["image/png"]), ("Content-Location", ["cid:image1"])],
    body := [1, 2] }

/-- An `image/png` part without a `Content-Location` header. -/
def pngPartNoLocation : part := { header := [("Content-Type", ["image/png"])], body := [3] }

/-- A part without a `Content-Type` header. -/
def partNoType : part := { header := [("Content-Location", ["cid:x"])], body := [4] }

/-- A part whose `Content-Type` does not parse. -/
def partBadType : part := { header := [("Content-Type", [";"])], body := [5] }

open bytes unicode

theorem utf8.DecodeRune_width_pos (p : List Byte) (hp : p ≠ []) : 1 ≤ (utf8.DecodeRune p).2 := by
  have hlen : ¬ p.length < 1 := by
    cases p with
    | nil => exact absurd rfl hp
    | cons a t => simp
  unfold utf8.DecodeRune
  simp only [hlen, if_false]
  split_ifs <;> simp

theorem bytes.indexFuncLoop_succ (s : List Byte) (f : Rune → Bool) (truth : Bool) (fuel start : Nat) :
    indexFuncLoop s f truth (fuel + 1) start =
      if start < s.length then
        if f (runeAt s start).1 == truth then (start : Int)
        else indexFuncLoop s f truth fuel (start + (runeAt s start).2)
      else -1 := rfl

theorem bytes.runeAt_width_pos (s : List Byte) (start : Nat) (h : start < s.length) :
    1 ≤ (runeAt s start).2 := by
  unfold runeAt
  split_ifs
  · apply utf8.DecodeRune_width_pos
    intro h0
    have := congrArg List.length h0
    simp at this
    omega
  · simp

theorem bytes.indexFuncLoop_ge (s : List Byte) (f : Rune → Bool) (truth : Bool) (fuel start : Nat) :
    indexFuncLoop s f truth fuel start = -1 ∨ (start : Int) ≤ indexFuncLoop s f truth fuel start := by
  induction fuel generalizing start with
  | zero => left; rfl
  | succ k ih =>
    rw [indexFuncLoop_succ]
    by_cases h1 : start < s.length
    · by_cases h2 : (f (runeAt s start).1 == truth) = true
      · simp only [h1, h2, if_true]; right; exact le_refl _
      · simp only [h1, h2, if_true, if_false]
        rcases ih (start + (runeAt s start).2) with h | h
        · left; exact h
        · right; push_cast at h; omega
    · simp only [h1, if_false]; left; trivial

/-- More fuel than `len(s) - start` does not change the result of the loop. -/
theorem bytes.indexFuncLoop_fuel (s : List Byte) (f : Rune → Bool) (truth : Bool)
    (fuel extra start : Nat) (h : s.length ≤ start + fuel) :
    indexFuncLoop s f truth (fuel + extra) start = indexFuncLoop s f truth fuel start := by
  induction fuel generalizing start with
  | zero =>
    have h1 : ¬ start < s.length := by omega
    cases extra with
    | zero => rfl
    | succ e => rw [Nat.zero_add, indexFuncLoop_succ]; simp only [h1, if_false]; rfl
  | succ k ih =>
    rw [show k + 1 + extra = (k + extra) + 1 by omega, indexFuncLoop_succ, indexFuncLoop_succ]
    by_cases h1 : start < s.length
    · have hw := runeAt_width_pos s start h1
      rw [ih (start + (runeAt s start).2) (by omega)]
    · simp only [h1, if_false]

theorem bytes.TrimLeftFunc_eq_drop (s : List Byte) (f : Rune → Bool) :
    ∃ k, TrimLeftFunc s f = s.drop k := by
  unfold TrimLeftFunc
  by_cases h : (indexFunc s f false == -1) = true
  · exact ⟨s.length, by simp [h]⟩
  · exact ⟨(indexFunc s f false).toNat, by simp only [h]; rfl⟩

theorem bytes.TrimLeftFunc_length_le (s : List Byte) (f : Rune → Bool) :
    (TrimLeftFunc s f).length ≤ s.length := by
  obtain ⟨k, hk⟩ := TrimLeftFunc_eq_drop s f
  rw [hk, List.length_drop]; omega

/-- A slice that is empty or whose first rune does not satisfy `f` is returned as it is. -/
theorem bytes.TrimLeftFunc_of_first (s : List Byte) (f : Rune → Bool)
    (h : s = [] ∨ f (runeAt s 0).1 = false) : TrimLeftFunc s f = s := by
  cases s with
  | nil => rfl
  | cons a t =>
    rcases h with h | h
    · exact absurd h (by simp)
    · unfold TrimLeftFunc indexFunc
      rw [List.length_cons, indexFuncLoop_succ]
      simp [h]

/-- A non-empty slice that `TrimLeftFunc` returns whole does not start with a rune satisfying `f`. -/
theorem bytes.first_of_TrimLeftFunc (s : List Byte) (f : Rune → Bool) (hs : s ≠ [])
    (h : TrimLeftFunc s f = s) : f (runeAt s 0).1 = false := by
  by_contra hf
  have hf1 : f (runeAt s 0).1 = true := by simpa using hf
  have hlen : 0 < s.length := List.length_pos.mpr hs
  have hw := runeAt_width_pos s 0 hlen
  obtain ⟨k, hk⟩ : ∃ k, s.length = k + 1 := ⟨s.length - 1, by omega⟩
  have hidx : indexFunc s f false = indexFuncLoop s f false k (runeAt s 0).2 := by
    unfold indexFunc
    rw [hk, indexFuncLoop_succ]
    simp [hf1, ← hk, hlen]
  have hlt : (TrimLeftFunc s f).length < s.length := by
    unfold TrimLeftFunc
    rw [hidx]
    rcases indexFuncLoop_ge s f false k (runeAt s 0).2 with h1 | h1
    · rw [h1]; simpa using hlen
    · have hne : ¬ (indexFuncLoop s f false k (runeAt s 0).2 == -1) = true := by
        simp only [beq_iff_eq]; omega
      simp only [hne, if_false, List.length_drop, Bool.false_eq_true]
      omega
  rw [h] at hlt
  exact lt_irrefl _ hlt

theorem utf8.first_mem (a : Byte) :
    utf8.first a ∈ [utf8.as, utf8.xx, utf8.s1, utf8.s2, utf8.s3, utf8.s4, utf8.s5, utf8.s6, utf8.s7] := by
  unfold utf8.first
  split_ifs <;> simp

theorem utf8.first_size (a : Byte) (h : ¬ utf8.first a ≥ utf8.as) : 2 ≤ utf8.first a &&& 7 := by
  have hm := utf8.first_mem a
  generalize utf8.first a = x at h hm
  simp only [List.mem_cons, List.mem_singleton, List.not_mem_nil, or_false] at hm
  rcases hm with rfl | rfl | rfl | rfl | rfl | rfl | rfl | rfl | rfl
  · exact absurd (by decide) h
  · exact absurd (by decide) h
  all_goals decide
theorem utf8.RuneError_not_space : IsSpace utf8.RuneError = false := by decide

/-- Decoding looks only at the bytes of the first encoding: either `p` alone is
too short or malformed and decodes to `RuneError`, or bytes after `p` do not matter. -/
theorem utf8.DecodeRune_append (p q : List Byte) (hp : p ≠ []) :
    utf8.DecodeRune p = (utf8.RuneError, 1) ∨ utf8.DecodeRune (p ++ q) = utf8.DecodeRune p := by
  have hlen : 0 < p.length := List.length_pos.mpr hp
  have h0 : (p ++ q).getD 0 0 = p.getD 0 0 := List.getD_append _ _ _ _ hlen
  have hl1 : ¬ p.length < 1 := by omega
  have hl2 : ¬ (p ++ q).length < 1 := by rw [List.length_append]; omega
  by_cases hx : utf8.first (p.getD 0 0) ≥ utf8.as
  · right
    unfold utf8.DecodeRune
    simp only [hl1, hl2, h0, hx, if_true, if_false]
  · have hsz := utf8.first_size _ hx
    by_cases hn : p.length < utf8.first (p.getD 0 0) &&& 7
    · left
      unfold utf8.DecodeRune
      simp only [hl1, hx, hn, if_true, if_false]
    · right
      have hn2 : ¬ (p ++ q).length < utf8.first (p.getD 0 0) &&& 7 := by
        rw [List.length_append]; omega
      have h1 : (p ++ q).getD 1 0 = p.getD 1 0 := List.getD_append _ _ _ _ (by omega)
      unfold utf8.DecodeRune
      simp only [hl1, hl2, h0, hx, hn, hn2, h1, if_false]
      by_cases hb1 : p.getD 1 0 < (utf8.acceptRanges (utf8.first (p.getD 0 0) >>> 4)).1 ∨
          (utf8.acceptRanges (utf8.first (p.getD 0 0) >>> 4)).2 < p.getD 1 0
      · simp only [hb1, if_true]
      · simp only [hb1, if_false]
        by_cases hs2 : utf8.first (p.getD 0 0) &&& 7 ≤ 2
        · simp only [hs2, if_true]
        · have h2 : (p ++ q).getD 2 0 = p.getD 2 0 := List.getD_append _ _ _ _ (by omega)
          simp only [hs2, if_false, h2]
          by_cases hb2 : p.getD 2 0 < utf8.locb ∨ utf8.hicb < p.getD 2 0
          · simp only [hb2, if_true]
          · simp only [hb2, if_false]
            by_cases hs3 : utf8.first (p.getD 0 0) &&& 7 ≤ 3
            · simp only [hs3, if_true]
            · have h3 : (p ++ q).getD 3 0 = p.getD 3 0 :=
                List.getD_append _ _ _ _ (by omega)
              simp only [hs3, if_false, h3]

/-- If a stream does not start with a rune satisfying `IsSpace`, no non-empty
leading piece of it does. -/
theorem bytes.runeAt_append_not_space (c q : List Byte) (hc : c ≠ [])
    (h : IsSpace (runeAt (c ++ q) 0).1 = false) : IsSpace (runeAt c 0).1 = false := by
  have hlen : 0 < c.length := List.length_pos.mpr hc
  have h0 : (c ++ q).getD 0 0 = c.getD 0 0 := List.getD_append _ _ _ _ hlen
  unfold runeAt at h ⊢
  rw [h0] at h
  by_cases hb : c.getD 0 0 ≥ utf8.RuneSelf
  · simp only [hb, if_true, List.drop_zero] at h ⊢
    rcases utf8.DecodeRune_append c q hc with hd | hd
    · rw [hd]; exact utf8.RuneError_not_space
    · rw [← hd]; exact h
  · simp only [hb, if_false] at h ⊢
    exact h

theorem bytes.TrimLeftFunc_append_self (c q : List Byte)
    (h : TrimLeftFunc (c ++ q) IsSpace = c ++ q) : TrimLeftFunc c IsSpace = c := by
  apply TrimLeftFunc_of_first
  by_cases hc : c = []
  · left; exact hc
  · right
    apply runeAt_append_not_space c q hc
    exact first_of_TrimLeftFunc _ _ (by simp [hc]) h

/-! ## Theorems: `trimReader` -/

theorem trimReader.Read_trimmed {σ : Type} (rdRead : Reader σ) (s : σ) (buf : List Byte) :
    trimReader.Read rdRead ⟨s, true⟩ buf = ((rdRead s buf).1, ⟨(rdRead s buf).2, true⟩) := by
  unfold trimReader.Read
  cases h : (rdRead s buf).1.err <;> simp [h] <;> rw [← h]

theorem trimReader.Read_error {σ : Type} (rdRead : Reader σ) (s : σ) (buf : List Byte) (e : Error)
    (h : (rdRead s buf).1.err = some e) :
    trimReader.Read rdRead ⟨s, false⟩ buf = ((rdRead s buf).1, ⟨(rdRead s buf).2, false⟩) := by
  unfold trimReader.Read
  simp [h]
  rw [← h]

theorem trimReader.Read_first {σ : Type} (rdRead : Reader σ) (s : σ) (buf : List Byte)
    (h : (rdRead s buf).1.err = none) :
    trimReader.Read rdRead ⟨s, false⟩ buf = (trimChunk (rdRead s buf).1, ⟨(rdRead s buf).2, true⟩) := by
  unfold trimReader.Read trimChunk
  simp [h]

/-- Once `trimmed` is set, the reads of a `trimReader` are the reads of the wrapped reader. -/
theorem readCalls_trimmed {σ : Type} (rdRead : Reader σ) (s : σ) (bufs : List (List Byte)) :
    readCalls (trimReader.Read rdRead) ⟨s, true⟩ bufs = readCalls rdRead s bufs := by
  induction bufs generalizing s with
  | nil => rfl
  | cons buf bufs ih =>
    simp only [readCalls, trimReader.Read_trimmed]
    rw [ih]

/-- The reads of a fresh `trimReader` are those of the wrapped reader with the
first error-free one trimmed. -/
theorem readCalls_trimReader {σ : Type} (rdRead : Reader σ) (s : σ) (bufs : List (List Byte)) :
    readCalls (trimReader.Read rdRead) ⟨s, false⟩ bufs = trimFirst (readCalls rdRead s bufs) := by
  induction bufs generalizing s with
  | nil => rfl
  | cons buf bufs ih =>
    cases h : (rdRead s buf).1.err with
    | none =>
      simp only [readCalls, trimReader.Read_first _ _ _ h, trimFirst, h, readCalls_trimmed]
    | some e =>
      simp only [readCalls, trimReader.Read_error _ _ _ e h, trimFirst, h, ih]

theorem trimFirst_append (pre : List ReadResult) (r : ReadResult) (post : List ReadResult)
    (hpre : ∀ x ∈ pre, x.err ≠ none) (hr : r.err = none) :
    trimFirst (pre ++ r :: post) = pre ++ trimChunk r :: post := by
  induction pre with
  | nil => simp [trimFirst, hr]
  | cons x pre ih =>
    have hx : x.err ≠ none := hpre x (List.mem_cons_self _ _)
    cases hxe : x.err with
    | none => exact absurd hxe hx
    | some e =>
      have ih2 := ih (fun y hy => hpre y (List.mem_cons_of_mem _ hy))
      simp only [List.cons_append, trimFirst, hxe]
      exact congrArg (List.cons x) ih2

theorem trimChunk_eq (r : ReadResult) :
    trimChunk r =
      { buf := bytes.TrimLeftFunc r.bytes IsSpace ++
          r.buf.drop (bytes.TrimLeftFunc r.bytes IsSpace).length,
        n := (bytes.TrimLeftFunc r.bytes IsSpace).length, err := none } := by
  have hle : (bytes.TrimLeftFunc r.bytes IsSpace).length ≤ r.buf.length := by
    refine le_trans (bytes.TrimLeftFunc_length_le _ _) ?_
    unfold ReadResult.bytes
    rw [List.length_take]; omega
  unfold trimChunk copy
  simp only [ReadResult.bytes] at hle ⊢
  rw [Nat.min_eq_right hle, List.take_length]

/-- C2. The first `trimReader.Read` call whose wrapped read returns without
error hands back that chunk with its leading Unicode whitespace removed, moved
to the start of the buffer, with `n` the number of bytes left; the calls before
it (which returned an error) and all calls after it hand back exactly the
buffer, count and error of the wrapped reader. -/
theorem trimReader_Read_trims_first_chunk_only {σ : Type} (rdRead : Reader σ) (s : σ)
    (bufs : List (List Byte)) (pre : List ReadResult) (r : ReadResult) (post : List ReadResult)
    (hrun : readCalls rdRead s bufs = pre ++ r :: post)
    (hpre : ∀ x ∈ pre, x.err ≠ none) (hr : r.err = none) :
    readCalls (trimReader.Read rdRead) ⟨s, false⟩ bufs =
      pre ++
        { buf := bytes.TrimLeftFunc (r.buf.take r.n) unicode.IsSpace ++
            r.buf.drop (bytes.TrimLeftFunc (r.buf.take r.n) unicode.IsSpace).length,
          n := (bytes.TrimLeftFunc (r.buf.take r.n) unicode.IsSpace).length,
          err := none } :: post := by
  rw [readCalls_trimReader, hrun, trimFirst_append pre r post hpre hr, trimChunk_eq]
  rfl

theorem trimReader_Read_trims_first_chunk_only_witness :
    readCalls (trimReader.Read chunkReader)
        ⟨[([], some (Error.lib "timeout")), ([32, 10, 65, 66], none), ([32, 67], none)], false⟩
        [[0, 0, 0, 0], [0, 0, 0, 0], [65, 66, 65, 66]] =
      [{ buf := [0, 0, 0, 0], n := 0, err := some (Error.lib "timeout") }] ++
        { buf := [65, 66] ++ [65, 66], n := 2, err := none } ::
        [{ buf := [32, 67, 65, 66], n := 2, err := none }] :=
  trimReader_Read_trims_first_chunk_only chunkReader _ _
    [{ buf := [0, 0, 0, 0], n := 0, err := some (Error.lib "timeout") }]
    { buf := [32, 10, 65, 66], n := 4, err := none }
    [{ buf := [32, 67, 65, 66], n := 2, err := none }]
    (by decide) (by decide) rfl

theorem trimFirst_all_errors (rs : List ReadResult)
    (h : rs.all (fun x => x.err.isSome) = true) : trimFirst rs = rs := by
  induction rs with
  | nil => rfl
  | cons r rs ih =>
    simp only [List.all_cons, Bool.and_eq_true] at h
    cases hr : r.err with
    | none => rw [hr] at h; exact absurd h.1 (by simp)
    | some e => simp only [trimFirst, hr, ih h.2]

/-- A chunk that `TrimLeftFunc` leaves whole is handed on by `trimChunk` byte for byte. -/
theorem trimChunk_bytes (r : ReadResult) : (trimChunk r).bytes = bytes.TrimLeftFunc r.bytes IsSpace := by
  rw [trimChunk_eq]
  simp [ReadResult.bytes]

theorem trimChunk_trimChunk (r : ReadResult)
    (h : bytes.TrimLeftFunc r.bytes IsSpace = r.bytes) : trimChunk (trimChunk r) = trimChunk r := by
  have hb : (trimChunk r).bytes = r.bytes := by rw [trimChunk_bytes, h]
  rw [trimChunk_eq (trimChunk r), hb, h]
  rw [trimChunk_eq r, h]
  simp [ReadResult.bytes]

theorem trimFirst_observed (rs : List ReadResult) (hchunks : errorsLast rs = true)
    (htrim : bytes.TrimLeftFunc (delivered rs) IsSpace = delivered rs) :
    (trimFirst rs).map (fun r => (r.bytes, r.err)) = rs.map (fun r => (r.bytes, r.err)) ∧
      trimFirst (trimFirst rs) = trimFirst rs := by
  cases rs with
  | nil => exact ⟨rfl, rfl⟩
  | cons r rs =>
    cases hr : r.err with
    | some e =>
      have hall : rs.all (fun x => x.err.isSome) = true := by
        simpa [errorsLast, hr] using hchunks
      simp only [trimFirst, hr, trimFirst_all_errors rs hall, and_self]
    | none =>
      have hkeep : bytes.TrimLeftFunc r.bytes IsSpace = r.bytes := by
        apply bytes.TrimLeftFunc_append_self r.bytes (delivered rs)
        simpa [delivered] using htrim
      have hnone : (trimChunk r).err = none := rfl
      constructor
      · simp only [trimFirst, hr, List.map_cons, trimChunk_bytes, hkeep, hnone]
      · simp only [trimFirst, hr, hnone, trimChunk_trimChunk r hkeep]

/-- C4. For a stream that does not start with Unicode whitespace, delivered in
any chunks (error-free reads, then possibly reads with an error, the first of
which may carry the last chunk), every read through a `trimReader` hands back
the bytes and the error of the wrapped read unchanged, and a `trimReader`
wrapped around that `trimReader` hands back exactly the same reads. -/
theorem trimReader_idempotent_on_trimmed_stream {σ : Type} (rdRead : Reader σ) (s : σ)
    (bufs : List (List Byte))
    (hchunks : errorsLast (readCalls rdRead s bufs) = true)
    (htrim : bytes.TrimLeftFunc (delivered (readCalls rdRead s bufs)) unicode.IsSpace =
      delivered (readCalls rdRead s bufs)) :
    (readCalls (trimReader.Read rdRead) ⟨s, false⟩ bufs).map (fun r => (r.bytes, r.err)) =
        (readCalls rdRead s bufs).map (fun r => (r.bytes, r.err)) ∧
      readCalls (trimReader.Read (trimReader.Read rdRead)) ⟨⟨s, false⟩, false⟩ bufs =
        readCalls (trimReader.Read rdRead) ⟨s, false⟩ bufs := by
  rw [readCalls_trimReader (trimReader.Read rdRead), readCalls_trimReader rdRead]
  exact trimFirst_observed _ hchunks htrim

theorem trimReader_idempotent_on_trimmed_stream_witness :
    (readCalls (trimReader.Read chunkReader)
          ⟨[([], none), ([65, 32], none), ([32, 66], some Error.EOF)], false⟩
          [[0, 0, 0, 0], [0, 0, 0, 0], [0, 0, 0, 0], [0, 0, 0, 0]]).map
        (fun r => (r.bytes, r.err)) =
        (readCalls chunkReader [([], none), ([65, 32], none), ([32, 66], some Error.EOF)]
          [[0, 0, 0, 0], [0, 0, 0, 0], [0, 0, 0, 0], [0, 0, 0, 0]]).map
        (fun r => (r.bytes, r.err)) ∧
      readCalls (trimReader.Read (trimReader.Read chunkReader))
          ⟨⟨[([], none), ([65, 32], none), ([32, 66], some Error.EOF)], false⟩, false⟩
          [[0, 0, 0, 0], [0, 0, 0, 0], [0, 0, 0, 0], [0, 0, 0, 0]] =
        readCalls (trimReader.Read chunkReader)
          ⟨[([], none), ([65, 32], none), ([32, 66], some Error.EOF)], false⟩
          [[0, 0, 0, 0], [0, 0, 0, 0], [0, 0, 0, 0], [0, 0, 0, 0]] :=
  trimReader_idempotent_on_trimmed_stream chunkReader _ _ (by decide) (by decide)

/-- C1 (the code at a failing input). The wrapped reader delivers the stream
`"\n\n\nA"` as the chunks `"\n\n"` and `"\nA"`: the reads through the
`trimReader` add up to `"\nA"`, while the stream without its leading whitespace
is `"A"`; the same stream without the blank lines, delivered as `"A"`, reads as `"A"`. -/
theorem trimReader_whitespace_only_first_chunk :
    delivered (readCalls (trimReader.Read chunkReader)
        ⟨[([10, 10], none), ([10, 65], none)], false⟩
        [[0, 0, 0, 0], [0, 0, 0, 0], [0, 0, 0, 0]]) = [10, 65] ∧
      bytes.TrimLeftFunc (delivered (readCalls chunkReader [([10, 10], none), ([10, 65], none)]
        [[0, 0, 0, 0], [0, 0, 0, 0], [0, 0, 0, 0]])) unicode.IsSpace = [65] ∧
      delivered (readCalls (trimReader.Read chunkReader) ⟨[([65], none)], false⟩
        [[0, 0, 0, 0], [0, 0, 0, 0]]) = [65] := by
  decide

/-- C3 (the code at a failing input). The first wrapped read returns zero bytes
and no error, the second returns `" A"`: the empty read already sets `trimmed`,
and the second read hands back `" A"` with its leading space. -/
theorem trimReader_empty_first_read_sets_trimmed :
    (trimReader.Read chunkReader ⟨[([], none), ([32, 65], none)], false⟩ [0, 0, 0, 0]).2.trimmed
        = true ∧
      (readCalls (trimReader.Read chunkReader) ⟨[([], none), ([32, 65], none)], false⟩
        [[0, 0, 0, 0], [0, 0, 0, 0]]).map (fun r => (r.bytes, r.err)) =
        [([], none), ([32, 65], none)] := by
  decide

/-! ## Theorems: the persist loop and `process` -/

theorem persistLoop_append (env : Env) (savedir : String) (pre rest : List part) (idx : Nat)
    (st : LoopState) :
    persistLoop env savedir (pre ++ rest) idx st =
      match persistLoop env savedir pre idx st with
      | (some err, st1) => (some err, st1)
      | (none, st1) => persistLoop env savedir rest (idx + pre.length) st1 := by
  induction pre generalizing idx st with
  | nil => simp [persistLoop]
  | cons p pre ih =>
    simp only [List.cons_append, persistLoop, List.length_cons]
    rcases h : persistPart env savedir idx p st with ⟨e, st1⟩
    cases e with
    | some err => simp
    | none =>
      have hn : idx + 1 + pre.length = idx + (pre.length + 1) := by omega
      simp only []
      rw [← hn]
      exact ih (idx + 1) st1

/-- Every event the loop body adds is a `MkdirAll` or a `WriteFile`, and the log only grows. -/
theorem persistPart_log (env : Env) (savedir : String) (idx : Nat) (p : part) (st : LoopState) :
    ∃ evs, (persistPart env savedir idx p st).2.log = st.log ++ evs ∧
      ∀ ev ∈ evs, ev.isPersist = true := by
  unfold persistPart
  dsimp only
  split_ifs
  · exact ⟨[], by simp⟩
  · split
    · exact ⟨[], by simp⟩
    · split_ifs
      · exact ⟨[], by simp⟩
      · split
        · exact ⟨[], by simp⟩
        · split
          · exact ⟨[Event.MkdirAll _], rfl, by simp [Event.isPersist]⟩
          · split
            · exact ⟨[Event.MkdirAll _, Event.WriteFile _ _], List.append_assoc _ _ _, by simp [Event.isPersist]⟩
            · exact ⟨[Event.MkdirAll _, Event.WriteFile _ _], List.append_assoc _ _ _, by simp [Event.isPersist]⟩

theorem persistLoop_log (env : Env) (savedir : String) (parts : List part) (idx : Nat)
    (st : LoopState) :
    ∃ evs, (persistLoop env savedir parts idx st).2.log = st.log ++ evs ∧
      ∀ ev ∈ evs, ev.isPersist = true := by
  induction parts generalizing idx st with
  | nil => exact ⟨[], by simp [persistLoop]⟩
  | cons p parts ih =>
    obtain ⟨evs1, h1, h1p⟩ := persistPart_log env savedir idx p st
    simp only [persistLoop]
    rcases h : persistPart env savedir idx p st with ⟨e, st1⟩
    rw [h] at h1
    cases e with
    | some err => exact ⟨evs1, h1, h1p⟩
    | none =>
      obtain ⟨evs2, h2, h2p⟩ := ih (idx + 1) st1
      refine ⟨evs1 ++ evs2, ?_, ?_⟩
      · simp only [h2]; simp only at h1; rw [h1, List.append_assoc]
      · intro ev hev
        rcases List.mem_append.mp hev with h' | h'
        · exact h1p ev h'
        · exact h2p ev h'

theorem persistLoop_init_log (env : Env) (savedir : String) (parts : List part) :
    ∀ ev ∈ (persistLoop env savedir parts 0 LoopState.init).2.log, ev.isPersist = true := by
  obtain ⟨evs, h, hp⟩ := persistLoop_log env savedir parts 0 LoopState.init
  rw [h]
  simpa [LoopState.init] using hp

/-- When the loop fails, `process` returns its error and does nothing more. -/
theorem process_of_loop_error (env : Env) (mht : String) (parts : List part) (err : Error)
    (h : (persistLoop env (savedirOf env mht) parts 0 LoopState.init).1 = some err) :
    process env mht parts =
      (some err, (persistLoop env (savedirOf env mht) parts 0 LoopState.init).2.log) := by
  rcases hl : persistLoop env (savedirOf env mht) parts 0 LoopState.init with ⟨e, st⟩
  rw [hl] at h
  simp only at h
  subst h
  simp only [process, hl]

theorem persistPart_missing (env : Env) (savedir : String) (idx : Nat) (p : part) (st : LoopState)
    (hp : p.header.Get "Content-Type" = "") :
    persistPart env savedir idx p st = (some Error.ErrMissingContentType, st) := by
  unfold persistPart
  simp [hp]

/-- C7 (as the code has it). If a part has no or an empty `Content-Type`,
`process` fails and does nothing beyond the persist loop over the parts before
that part: no document is parsed, no HTML file and no PDF are written. The
error is `ErrMissingContentType` unless the loop already failed on one of the
parts before it, and then it is that earlier error: exactly, it is the error of
the loop over the parts before when that loop fails, and `ErrMissingContentType`
when it does not. -/
theorem process_missing_content_type (env : Env) (mht : String) (pre : List part) (p : part)
    (post : List part) (hp : p.header.Get "Content-Type" = "") :
    ((process env mht (pre ++ p :: post)).1 = some Error.ErrMissingContentType ∨
        ((persistLoop env (savedirOf env mht) pre 0 LoopState.init).1 ≠ none ∧
          (process env mht (pre ++ p :: post)).1 =
            (persistLoop env (savedirOf env mht) pre 0 LoopState.init).1)) ∧
      (process env mht (pre ++ p :: post)).1 ≠ none ∧
      (process env mht (pre ++ p :: post)).2 =
        (persistLoop env (savedirOf env mht) pre 0 LoopState.init).2.log ∧
      (∀ ev ∈ (process env mht (pre ++ p :: post)).2, ev.isPersist = true) ∧
      (process env mht (pre ++ p :: post)).1 =
        match (persistLoop env (savedirOf env mht) pre 0 LoopState.init).1 with
        | some err => some err
        | none => some Error.ErrMissingContentType := by
  have hall := persistLoop_init_log env (savedirOf env mht) pre
  have happ := persistLoop_append env (savedirOf env mht) pre (p :: post) 0 LoopState.init
  rcases hl : persistLoop env (savedirOf env mht) pre 0 LoopState.init with ⟨e, st⟩
  rw [hl] at happ hall
  cases e with
  | some err =>
    simp only at happ
    have hproc := process_of_loop_error env mht (pre ++ p :: post) err (by rw [happ])
    rw [hproc, happ]
    exact ⟨Or.inr ⟨by simp, rfl⟩, by simp, rfl, hall, rfl⟩
  | none =>
    simp only [persistLoop, persistPart_missing _ _ _ _ _ hp] at happ
    have hproc := process_of_loop_error env mht (pre ++ p :: post) _ (by rw [happ])
    rw [hproc, happ]
    exact ⟨Or.inl rfl, by simp, rfl, hall, rfl⟩

theorem process_missing_content_type_witness :
    ((process testEnv "a.mht" ([pngPart] ++ partNoType :: [htmlPart])).1 =
          some Error.ErrMissingContentType ∨
        ((persistLoop testEnv (savedirOf testEnv "a.mht") [pngPart] 0 LoopState.init).1 ≠ none ∧
          (process testEnv "a.mht" ([pngPart] ++ partNoType :: [htmlPart])).1 =
            (persistLoop testEnv (savedirOf testEnv "a.mht") [pngPart] 0 LoopState.init).1)) ∧
      (process testEnv "a.mht" ([pngPart] ++ partNoType :: [htmlPart])).1 ≠ none ∧
      (process testEnv "a.mht" ([pngPart] ++ partNoType :: [htmlPart])).2 =
        (persistLoop testEnv (savedirOf testEnv "a.mht") [pngPart] 0 LoopState.init).2.log ∧
      (∀ ev ∈ (process testEnv "a.mht" ([pngPart] ++ partNoType :: [htmlPart])).2,
        ev.isPersist = true) ∧
      (process testEnv "a.mht" ([pngPart] ++ partNoType :: [htmlPart])).1 =
        match (persistLoop testEnv (savedirOf testEnv "a.mht") [pngPart] 0 LoopState.init).1 with
        | some err => some err
        | none => some Error.ErrMissingContentType :=
  process_missing_content_type testEnv "a.mht" [pngPart] partNoType [htmlPart] (by decide)

/-- C7 (counterexample). The first part has a `Content-Type` that does not
parse, the second part has none: `process` fails with the parse error of the
first part, not with `ErrMissingContentType`. -/
theorem process_parse_error_before_missing_type :
    partNoType.header.Get "Content-Type" = "" ∧
      (process testEnv "a.mht" [partBadType, partNoType]).1 =
        some (Error.lib "mime: no media type") ∧
      (process testEnv "a.mht" [partBadType, partNoType]).1 ≠
        some Error.ErrMissingContentType := by
  decide

theorem chooseExt_ok (env : Env) (hio : env.ioSucceeds) (v mimetype : String)
    (h : env.ParseMediaType v = .ok mimetype) : ∃ ext, chooseExt env mimetype = .ok ext := by
  obtain ⟨exts, hexts⟩ := hio.2.2 v mimetype h
  unfold chooseExt
  dsimp only
  split_ifs
  · exact ⟨_, rfl⟩
  · rw [hexts]; simp only; split_ifs <;> exact ⟨_, rfl⟩

/-- The loop body on a part with a parseable content type, when file I/O succeeds. -/
theorem persistPart_ok (env : Env) (savedir : String) (idx : Nat) (p : part) (st : LoopState)
    (ht : typed env p) (hio : env.ioSucceeds) :
    persistPart env savedir idx p st =
      if st.html.isNone ∧ isHTML env p then (none, { st with html := some p })
      else (none, { st with
        saves := st.saves.set (p.header.Get "Content-Location") (fileOf env savedir idx p),
        log := st.log ++ [Event.MkdirAll (dirOf env savedir p),
          Event.WriteFile (fileOf env savedir idx p) p.body] }) := by
  obtain ⟨hne, mt, hmt⟩ := ht
  obtain ⟨ext, hext⟩ := chooseExt_ok env hio _ mt hmt
  have hmt2 : mediaTypeOf env p = mt := by simp [mediaTypeOf, hmt]
  have hext2 : extOf env p = ext := by simp [extOf, hmt2, hext]
  have hhtml : isHTML env p = (mt == "text/html") := by simp [isHTML, hmt]
  unfold persistPart
  simp only [hne, if_false, hmt, hext, hio.1, hio.2.1, fileOf, dirOf, hmt2, hext2, hhtml,
    beq_iff_eq, List.append_assoc, List.singleton_append]

theorem persistLoop_ok (env : Env) (savedir : String) (parts : List part) (idx : Nat)
    (st : LoopState) (ht : ∀ p ∈ parts, typed env p) (hio : env.ioSucceeds) :
    persistLoop env savedir parts idx st =
      (none,
        { html := if st.html.isNone then parts.find? (isHTML env) else st.html,
          saves := savesAfter env savedir st.saves (persisted env st.html.isNone idx parts),
          log := st.log ++ (persisted env st.html.isNone idx parts).flatMap (fun ip =>
            [Event.MkdirAll (dirOf env savedir ip.2),
              Event.WriteFile (fileOf env savedir ip.1 ip.2) ip.2.body]) }) := by
  induction parts generalizing idx st with
  | nil =>
    cases st with
    | mk html saves log => cases html <;> simp [persistLoop, persisted, savesAfter]
  | cons p parts ih =>
    have htp := ht p (List.mem_cons_self _ _)
    have ih2 := fun i s => ih i s (fun q hq => ht q (List.mem_cons_of_mem _ hq))
    simp only [persistLoop, persistPart_ok env savedir idx p st htp hio]
    by_cases hc : st.html.isNone = true ∧ isHTML env p = true
    · simp only [hc, and_self, if_true, ih2, persisted, List.find?_cons]
      simp
    · rw [if_neg hc]
      simp only [ih2, persisted, hc, if_false, savesAfter, List.flatMap_cons, List.append_assoc,
        List.find?_cons]
      by_cases hn : st.html.isNone = true
      · have hh : isHTML env p = false := by
          cases hb : isHTML env p
          · rfl
          · exact absurd ⟨hn, hb⟩ hc
        simp [hn, hh]
      · simp [hn]

theorem parsed_once_start (base : List Event) (b : List Byte) :
    ∃ tail, base ++ [Event.NewDocumentFromReader b] = base ++ Event.NewDocumentFromReader b :: tail ∧
      ∀ ev ∈ tail, ev.isNewDocument = false :=
  ⟨[], rfl, by simp⟩

theorem parsed_once_snoc (base log : List Event) (b : List Byte) (e : Event)
    (h : ∃ tail, log = base ++ Event.NewDocumentFromReader b :: tail ∧
      ∀ ev ∈ tail, ev.isNewDocument = false)
    (he : e.isNewDocument = false) :
    ∃ tail, log ++ [e] = base ++ Event.NewDocumentFromReader b :: tail ∧
      ∀ ev ∈ tail, ev.isNewDocument = false := by
  obtain ⟨tail, ht, hn⟩ := h
  refine ⟨tail ++ [e], by rw [ht]; simp, ?_⟩
  intro ev hev
  rcases List.mem_append.mp hev with h1 | h1
  · exact hn ev h1
  · rw [List.mem_singleton.mp h1]; exact he

theorem parsed_once_printPdf (env : Env) (path target : String) (base log : List Event)
    (b : List Byte)
    (h : ∃ tail, log = base ++ Event.NewDocumentFromReader b :: tail ∧
      ∀ ev ∈ tail, ev.isNewDocument = false) :
    ∃ tail, (printPdf env path target log).2 = base ++ Event.NewDocumentFromReader b :: tail ∧
      ∀ ev ∈ tail, ev.isNewDocument = false := by
  unfold printPdf
  dsimp only
  split
  · exact parsed_once_snoc _ _ _ _ h rfl
  · split
    · exact parsed_once_snoc _ _ _ _ (parsed_once_snoc _ _ _ _ h rfl) rfl
    · exact parsed_once_snoc _ _ _ _ (parsed_once_snoc _ _ _ _ h rfl) rfl

/-- After a loop that succeeded with `html` set, `process` hands the body of
`html` to the parser, and nothing else later on. -/
theorem process_of_loop_html (env : Env) (mht : String) (parts : List part) (st : LoopState)
    (h : part) (hl : persistLoop env (savedirOf env mht) parts 0 LoopState.init = (none, st))
    (hh : st.html = some h) :
    ∃ tail, (process env mht parts).2 = st.log ++ Event.NewDocumentFromReader h.body :: tail ∧
      ∀ ev ∈ tail, ev.isNewDocument = false := by
  have h0 := parsed_once_start st.log h.body
  simp only [process, hl, hh]
  split
  · exact h0
  · split
    · exact h0
    · have h1 := fun e he => parsed_once_snoc _ _ _ e h0 he
      split
      · exact h1 _ rfl
      · split
        · exact h1 _ rfl
        · rename_i pth _
          have h2 := parsed_once_printPdf env pth
            (strings.TrimSuffix mht (filepath.Ext env.IsPathSeparator mht) ++ ".html")
            _ _ _ (h1 (Event.WriteFile
              (strings.TrimSuffix mht (filepath.Ext env.IsPathSeparator mht) ++ ".html")
              ‹List Byte›) rfl)
          split
          · rename_i hpp
            rw [hpp] at h2
            exact h2
          · rename_i hpp
            rw [hpp] at h2
            have h3 := parsed_once_snoc _ _ _ (Event.RemoveAll (savedirOf env mht)) h2 rfl
            split
            · exact h3
            · split
              · exact parsed_once_snoc _ _ _ _ h3 rfl
              · exact parsed_once_snoc _ _ _ _ h3 rfl

theorem process_of_loop_no_html (env : Env) (mht : String) (parts : List part) (st : LoopState)
    (hl : persistLoop env (savedirOf env mht) parts 0 LoopState.init = (none, st))
    (hh : st.html = none) :
    process env mht parts = (some (Error.New "html not found"), st.log) := by
  simp only [process, hl, hh]

theorem testEnv_ioSucceeds : testEnv.ioSucceeds := by
  refine ⟨fun _ _ => rfl, fun _ _ _ => rfl, fun v mt _ => ?_⟩
  show ∃ exts, (if mt = "image/png" then Except.ok [".png"]
    else if mt = "text/html" then Except.ok [".htm", ".html"]
    else if mt = "text/css" then Except.ok [".css"]
    else Except.ok []) = Except.ok exts
  split_ifs <;> exact ⟨_, rfl⟩

/-- C8. When every part has a non-empty `Content-Type` that parses and file I/O
succeeds, the persist loop makes only `MkdirAll` and `WriteFile` calls, and then:
if some part has media type `text/html`, the body handed to the HTML parser is
the body of the first such part in decode order, and no other body is handed
to it; if no part has media type `text/html`, `process` returns the error
`html not found` and does nothing after the loop. -/
theorem process_selects_first_html (env : Env) (mht : String) (parts : List part)
    (ht : ∀ p ∈ parts, typed env p) (hio : env.ioSucceeds) :
    (∀ ev ∈ (persistLoop env (savedirOf env mht) parts 0 LoopState.init).2.log,
        ev.isPersist = true) ∧
      match parts.find? (isHTML env) with
      | some h =>
        ∃ tail, (process env mht parts).2 =
            (persistLoop env (savedirOf env mht) parts 0 LoopState.init).2.log ++
              Event.NewDocumentFromReader h.body :: tail ∧
          ∀ ev ∈ tail, ev.isNewDocument = false
      | none =>
        process env mht parts =
          (some (Error.New "html not found"),
            (persistLoop env (savedirOf env mht) parts 0 LoopState.init).2.log) := by
  refine ⟨persistLoop_init_log env _ parts, ?_⟩
  have hl := persistLoop_ok env (savedirOf env mht) parts 0 LoopState.init ht hio
  cases hf : parts.find? (isHTML env) with
  | some h =>
    simp only
    have := process_of_loop_html env mht parts _ h hl (by simp [LoopState.init, hf])
    rw [hl]
    exact this
  | none =>
    simp only
    have := process_of_loop_no_html env mht parts _ hl (by simp [LoopState.init, hf])
    rw [hl]
    exact this

theorem process_selects_first_html_witness :
    (∀ ev ∈ (persistLoop testEnv (savedirOf testEnv "a.mht") [pngPart, htmlPart, htmlPart2]
          0 LoopState.init).2.log, ev.isPersist = true) ∧
      match List.find? (isHTML testEnv) [pngPart, htmlPart, htmlPart2] with
      | some h =>
        ∃ tail, (process testEnv "a.mht" [pngPart, htmlPart, htmlPart2]).2 =
            (persistLoop testEnv (savedirOf testEnv "a.mht") [pngPart, htmlPart, htmlPart2]
              0 LoopState.init).2.log ++ Event.NewDocumentFromReader h.body :: tail ∧
          ∀ ev ∈ tail, ev.isNewDocument = false
      | none =>
        process testEnv "a.mht" [pngPart, htmlPart, htmlPart2] =
          (some (Error.New "html not found"),
            (persistLoop testEnv (savedirOf testEnv "a.mht") [pngPart, htmlPart, htmlPart2]
              0 LoopState.init).2.log) :=
  process_selects_first_html testEnv "a.mht" [pngPart, htmlPart, htmlPart2]
    (by
      intro p hp
      simp only [List.mem_cons, List.mem_singleton, List.not_mem_nil, or_false] at hp
      rcases hp with rfl | rfl | rfl
      · exact ⟨by decide, _, rfl⟩
      · exact ⟨by decide, _, rfl⟩
      · exact ⟨by decide, _, rfl⟩)
    testEnv_ioSucceeds

/-- C5 (the code at a failing input). An HTML part followed by an image part
without `Content-Location`: the loop succeeds and `saves` has an entry for the
key `""`, the path of that image. -/
theorem persistLoop_records_empty_location :
    pngPartNoLocation.header.Get "Content-Location" = "" ∧
      (persistLoop testEnv "a_files" [htmlPart, pngPartNoLocation] 0 LoopState.init).1 = none ∧
      (persistLoop testEnv "a_files" [htmlPart, pngPartNoLocation] 0 LoopState.init).2.saves "" =
        some "a_files/image/png/1.png" := by
  decide

/-! ## Theorems: `changeRef` -/

/-- C9 (the code at a failing input). A `script` element without a `src`
attribute, and a map with an entry for the key `""`: `changeRef` gives the
element a `src` attribute. -/
theorem changeRef_adds_missing_attribute :
    goquery.Attr scriptInline "src" = ("", false) ∧
      (changeRef scriptInline (StringMap.empty.set "" "a_files/image/png/1.png")).Attr =
        [⟨"", "type", "module"⟩, ⟨"", "src", "a_files/image/png/1.png"⟩] := by
  decide

/-! ## Theorems: `%d` -/

end MhtmlToPdf
